import Mathlib

/-!
Shallow embedding of `src/util/tracing/trace_to_csv.c` (Lingua Franca trace
converter).  The C program reads a binary trace file: a header (start time,
object-description table) followed by length-prefixed batches of fixed-size
trace records, and writes one CSV row per record.

The input stream is modelled as a list of bytes together with the stdio
end-of-file indicator (`CFile`).  `freadBytes` models `fread`: it returns the
bytes read, the number of COMPLETE items read, and the updated stream; the
end-of-file indicator is set exactly when the call attempts to read past the
end of the data (C11 fread is specified in terms of fgetc, which sets the
indicator on hitting end of file, including on a short read of a partial
item).

Machine integers are modelled as `Int` with explicit reduction modulo powers
of two where the C code narrows or wraps; pointer values are opaque `Nat`
tokens.  `trace_record_t`, its byte layout, the constant
`TRACE_BUFFER_CAPACITY` and the macro `_LF_TRACE_FAILURE` come from
`trace.h`, which is not under `src/`; those parts are modelled from the spec
(sections 3 and 6 of the specification) and are marked as such below.
-/

namespace TraceToCsv

/-- A stdio stream: the remaining bytes and the end-of-file indicator. -/
structure CFile where
  data : List Nat
  eofFlag : Bool
deriving DecidableEq

/-- Model of `fread(ptr, size, nmemb, f)`: consumes `min (size*nmemb)`
available bytes, returns (bytes consumed, number of complete items read,
updated stream).  The end-of-file indicator is set when the call tries to
read more bytes than remain. -/
def freadBytes (size nmemb : Nat) (f : CFile) : List Nat × Nat × CFile :=
  let want := size * nmemb
  let got := min want f.data.length
  (f.data.take got, got / size,
    ⟨f.data.drop got, f.eofFlag || decide (f.data.length < want)⟩)

/-- Value of a little-endian byte list. -/
def decodeLE : List Nat → Nat
  | [] => 0
  | b :: rest => b % 256 + 256 * decodeLE rest

/-- Reinterpret a `w`-bit unsigned value as a signed two-complement `Int`. -/
def toSigned (w : Nat) (v : Nat) : Int :=
  if v < 2 ^ (w - 1) then (v : Int) else (v : Int) - 2 ^ w

/-- C conversion of a signed value to `size_t` (reduction modulo 2^64). -/
def size_t_of_int (n : Int) : Nat := (n % 2 ^ 64).toNat

/-- Little-endian encoding of a value into `w` bytes (test scaffolding used
to build concrete input streams). -/
def encLE : Nat → Nat → List Nat
  | 0, _ => []
  | w + 1, v => v % 256 :: encLE w (v / 256)

/-- Encode a signed 32-bit value as 4 little-endian bytes (scaffolding). -/
def encI32 (v : Int) : List Nat := encLE 4 (v % 2 ^ 32).toNat

/-- Encode a signed 64-bit value as 8 little-endian bytes (scaffolding). -/
def encI64 (v : Int) : List Nat := encLE 8 (v % 2 ^ 64).toNat

/-- Modelled from the spec: `trace_record_t` from `trace.h` (not under
`src/`), with the fields listed in section 6 of the specification:
event_type (int), self_struct (pointer-width opaque identity),
reaction_number (signed int), worker (int), logical_time (int64),
microstep (int), physical_time (int64). -/
structure trace_record_t where
  event_type : Int
  self_struct : Nat
  reaction_number : Int
  worker : Int
  logical_time : Int
  microstep : Int
  physical_time : Int
deriving DecidableEq

instance : Inhabited trace_record_t := ⟨⟨0, 0, 0, 0, 0, 0, 0⟩⟩

/-- Modelled from the spec: packed byte size of `trace_record_t`
(4 + 8 + 4 + 4 + 8 + 4 + 8), little/native-endian layout per section 6 of
the specification (the real struct lives in `trace.h`, not under `src/`). -/
def sizeof_trace_record_t : Nat := 40

/-- Decode one 40-byte record, little-endian, fields at their packed
offsets. -/
def decodeRecord (bs : List Nat) : trace_record_t :=
  ⟨toSigned 32 (decodeLE (bs.take 4)),
   decodeLE ((bs.drop 4).take 8),
   toSigned 32 (decodeLE ((bs.drop 12).take 4)),
   toSigned 32 (decodeLE ((bs.drop 16).take 4)),
   toSigned 64 (decodeLE ((bs.drop 20).take 8)),
   toSigned 32 (decodeLE ((bs.drop 28).take 4)),
   toSigned 64 (decodeLE ((bs.drop 32).take 8))⟩

/-- Encode a record into its 40-byte packed form (scaffolding). -/
def encRecord (r : trace_record_t) : List Nat :=
  encI32 r.event_type ++ (encLE 8 r.self_struct ++ (encI32 r.reaction_number ++
    (encI32 r.worker ++ (encI64 r.logical_time ++ (encI32 r.microstep ++
      encI64 r.physical_time)))))

/-- Fuel-driven decoder of consecutive 40-byte records; the fuel argument
only makes the recursion structural, `decodeRecords` supplies enough fuel
for the whole list. -/
def decodeRecordsAux : Nat → List Nat → List trace_record_t
  | 0, _ => []
  | fuel + 1, bs =>
    if 40 ≤ bs.length then
      decodeRecord (bs.take 40) :: decodeRecordsAux fuel (bs.drop 40)
    else []

/-- Decode every complete 40-byte record at the front of a byte list
(trailing partial bytes are ignored, as `fread` only counts complete
items). -/
def decodeRecords (bs : List Nat) : List trace_record_t :=
  decodeRecordsAux bs.length bs

/-- One entry of the object-description table (`object_description_t`):
an opaque pointer token and its description string. -/
structure object_description_t where
  object : Nat
  description : String
deriving DecidableEq

/-- Embedding of `get_description` (lines 72-80): linear scan over the
object-description table, first match wins, sentinel string on miss. -/
def get_description : List object_description_t → Nat → String
  | [], _ => "NO DESCRIPTION FOUND"
  | d :: rest, object =>
    if d.object = object then d.description else get_description rest object

/-- Embedding of the reaction-name rendering (lines 169-173):
`"none"` for a negative reaction number, else `snprintf(buf, 4, "%d", n)`,
which writes at most 3 characters of the decimal text plus the NUL
terminator, i.e. the decimal rendering truncated to its first 3
characters. -/
def reaction_name (reaction_number : Int) : String :=
  if 0 ≤ reaction_number then
    String.mk ((toString reaction_number).toList.take 3)
  else "none"

/-- Reduce an integer into signed 64-bit range by two-complement
wraparound. -/
def wrap64 (x : Int) : Int := (x + 2 ^ 63) % 2 ^ 64 - 2 ^ 63

/-- C `long long` subtraction as performed by `t - start_time` in the
fprintf arguments; overflow is modelled as two-complement wraparound. -/
def int64_sub (a b : Int) : Int := wrap64 (a - b)

/-- One CSV body line as produced by the fprintf at lines 175-183.
`event_index` is the index used to read the external `trace_event_names`
table (declared in `trace.h`, not under `src/`): the C code passes
`trace_event_names[trace[i].event_type]` with no bounds check, so the row
records the raw index. -/
structure OutputRow where
  event_index : Int
  reactor : String
  reaction : String
  worker : Int
  elapsed_logical : Int
  microstep : Int
  elapsed_physical : Int
deriving DecidableEq

/-- Build the CSV row for one record (the body of the loop at lines
168-184). -/
def mkRow (start_time : Int) (descs : List object_description_t)
    (r : trace_record_t) : OutputRow :=
  ⟨r.event_type,
   get_description descs r.self_struct,
   reaction_name r.reaction_number,
   r.worker,
   int64_sub r.logical_time start_time,
   r.microstep,
   int64_sub r.physical_time start_time⟩

/-- Outcome of one `read_trace` call: either `exit(code)` (process
terminates) or a return, carrying the emitted rows, the returned item
count, the updated global record buffer tail and the stream. -/
inductive TraceResult where
  | exit (code : Nat)
  | ret (rows : List OutputRow) (count : Nat) (buf : List trace_record_t) (f : CFile)
deriving DecidableEq

/-- Embedding of `read_trace` (lines 151-186).  `capacity` is
`TRACE_BUFFER_CAPACITY` (a constant from `trace.h`, not under `src/`, kept
as a parameter); `buf` is the current contents of the global `trace`
buffer, whose leading entries are overwritten by the records actually read
(a short record read leaves stale entries visible to the decode loop,
exactly as in the C code).  The batch length read as a signed int is
converted to `size_t` when passed to `fread`, and the returned count is
`items_read`, i.e. 1 (for the length field) plus the number of complete
records read. -/
def read_trace (capacity : Nat) (start_time : Int)
    (descs : List object_description_t) (buf : List trace_record_t)
    (f : CFile) : TraceResult :=
  let r1 := freadBytes 4 1 f
  if r1.2.1 ≠ 1 then
    if r1.2.2.eofFlag then .ret [] 0 buf r1.2.2 else .exit 3
  else
    let trace_length : Int := toSigned 32 (decodeLE r1.1)
    if trace_length > (capacity : Int) then .exit 4
    else
      let r2 := freadBytes sizeof_trace_record_t (trace_length % 2 ^ 64).toNat r1.2.2
      let newBuf := decodeRecords r2.1 ++ buf.drop r2.2.1
      .ret ((List.range trace_length.toNat).map
              (fun i => mkRow start_time descs (newBuf.getD i default)))
        (1 + r2.2.1) newBuf r2.2.2

/-- Outcome of `read_header` (lines 97-143): either the fatal failure path
`_LF_TRACE_FAILURE` (modelled from the spec, section 4.1: any short
fixed-width read during header parsing is a fatal decoding failure; the
macro lives in `trace.h`, not under `src/`), or a return carrying the
`size_t` return value, the start time, the object-description table and
the updated stream. -/
inductive HeaderResult where
  | failure
  | ret (v : Nat) (start_time : Int) (descs : List object_description_t) (f : CFile)
deriving DecidableEq

/-- Embedding of the description-reading loop (lines 125-135): read bytes
one at a time until a NUL byte or until 1023 characters
(`BUFFER_SIZE - 1`) have been stored; a short one-byte read is the fatal
`_LF_TRACE_FAILURE` path, returned as `none`.  The stream is passed as
its byte list and flag so that the recursion is structural on the data. -/
def read_desc_loop (character : Nat) (description_length : Nat)
    (acc : List Nat) : List Nat → Bool → Option (String × CFile)
  | data, flag =>
    if character ≠ 0 ∧ description_length < 1023 then
      match data with
      | [] => none
      | c :: restData =>
        read_desc_loop c (description_length + 1) (acc ++ [character]) restData flag
    else some (String.mk (acc.map Char.ofNat), ⟨data, flag⟩)

/-- Embedding of the table-entry loop of `read_header` (lines 118-140):
for each declared entry read a pointer-width identity and a
NUL-terminated description; any short read is the fatal failure path
(`none`). -/
def read_entries : Nat → CFile → List object_description_t →
    Option (List object_description_t × CFile)
  | 0, f, acc => some (acc, f)
  | n + 1, f, acc =>
    let r := freadBytes 8 1 f
    if r.2.1 ≠ 1 then none
    else
      match r.2.2.data with
      | [] => none
      | c :: restData =>
        match read_desc_loop c 0 [] restData r.2.2.eofFlag with
        | none => none
        | some (desc, f2) => read_entries n f2 (acc ++ [⟨decodeLE r.1, desc⟩])

/-- Embedding of `read_header` (lines 97-143).  The function is declared
with return type `size_t`, so the `return -1` on allocation failure is
converted modulo 2^64 (`size_t_of_int`).  Allocation failure is not
determined by the byte stream, so it is abstracted by the `calloc_fails`
flag; on failure the function returns before reading any table entry. -/
def read_header (calloc_fails : Bool) (f : CFile) : HeaderResult :=
  let r1 := freadBytes 8 1 f
  if r1.2.1 ≠ 1 then .failure
  else
    let start_time := toSigned 64 (decodeLE r1.1)
    let r2 := freadBytes 4 1 r1.2.2
    if r2.2.1 ≠ 1 then .failure
    else
      let object_descriptions_size := toSigned 32 (decodeLE r2.1)
      if calloc_fails then .ret (size_t_of_int (-1)) start_time [] r2.2.2
      else
        match read_entries object_descriptions_size.toNat r2.2.2 [] with
        | none => .failure
        | some (descs, f3) =>
          .ret (size_t_of_int object_descriptions_size) start_time descs f3

/-- Outcome of the driving loop `while (read_trace(...) != 0) {}` at line
218, with explicit fuel (each nonzero return consumes at least four bytes,
so `f.data.length + 1` fuel always suffices). -/
inductive LoopResult where
  | exit (code : Nat)
  | done (rows : List OutputRow)
  | outOfFuel
deriving DecidableEq

/-- Embedding of the driving loop at line 218: call `read_trace` until it
returns 0, accumulating the emitted rows in file order. -/
def trace_loop (capacity : Nat) (start_time : Int)
    (descs : List object_description_t) :
    Nat → List trace_record_t → CFile → LoopResult
  | 0, _, _ => .outOfFuel
  | fuel + 1, buf, f =>
    match read_trace capacity start_time descs buf f with
    | .exit c => .exit c
    | .ret rows count newBuf f1 =>
      if count = 0 then .done rows
      else
        match trace_loop capacity start_time descs fuel newBuf f1 with
        | .done laterRows => .done (rows ++ laterRows)
        | r => r

/-- Outcome of the conversion phase of `main` (lines 215-219):
`csvHeaderWritten` records whether the fixed CSV header line was written,
i.e. whether the guard on the `read_header` return value passed. -/
inductive RunResult where
  | headerFailure
  | exit (code : Nat)
  | done (csvHeaderWritten : Bool) (rows : List OutputRow)
  | outOfFuel
deriving DecidableEq

/-- Embedding of the conversion phase of `main` (lines 215-219):
`if (read_header(trace_file) >= 0)` then write the CSV header line and run
the decode loop.  `read_header` returns `size_t`, so the comparison is an
unsigned `v >= 0`, faithfully written here as a comparison on `Nat`. -/
def main_convert (capacity : Nat) (calloc_fails : Bool)
    (buf : List trace_record_t) (fuel : Nat) (f : CFile) : RunResult :=
  match read_header calloc_fails f with
  | .failure => .headerFailure
  | .ret v start_time descs f1 =>
    if v ≥ 0 then
      match trace_loop capacity start_time descs fuel buf f1 with
      | .exit c => .exit c
      | .done rows => .done true rows
      | .outOfFuel => .outOfFuel
    else .done false []

/-- Concrete record with a negative (out-of-range) event kind, used in
closed counterexamples and witnesses. -/
def exRecNegKind : trace_record_t := ⟨-1, 1, 0, 0, 0, 0, 0⟩

/-- Row produced for `exRecNegKind` with start time 0 and an empty table. -/
def exRowNegKind : OutputRow := ⟨-1, "NO DESCRIPTION FOUND", "0", 0, 0, 0, 0⟩

/-- Concrete record A for multi-record batches. -/
def exRecA : trace_record_t := ⟨0, 1, 0, 0, 100, 0, 200⟩

/-- Row produced for `exRecA` with start time 0 and an empty table. -/
def exRowA : OutputRow := ⟨0, "NO DESCRIPTION FOUND", "0", 0, 100, 0, 200⟩

/-- Concrete record B for multi-record batches. -/
def exRecB : trace_record_t := ⟨1, 2, 7, 1, 300, 1, 400⟩

/-- Row produced for `exRecB` with start time 0 and an empty table. -/
def exRowB : OutputRow := ⟨1, "NO DESCRIPTION FOUND", "7", 1, 300, 1, 400⟩

/-- Concrete record with the no-reaction sentinel, logical time 10 and
physical time 11. -/
def exRecNone : trace_record_t := ⟨0, 1, -1, 2, 10, 0, 11⟩

/-- Row produced for `exRecNone` with start time 5 and an empty table. -/
def exRowNone : OutputRow := ⟨0, "NO DESCRIPTION FOUND", "none", 2, 5, 0, 6⟩

/-- Concrete record whose reaction number has four decimal digits. -/
def exRec1000 : trace_record_t := ⟨0, 1, 1000, 0, 0, 0, 0⟩

/-- Concrete one-entry object-description table. -/
def exTable : List object_description_t := [⟨5, "A"⟩]

lemma encLE_length (w v : Nat) : (encLE w v).length = w := by
  induction w generalizing v with
  | zero => rfl
  | succ w ih => simp [encLE, ih]

lemma encI32_length (v : Int) : (encI32 v).length = 4 := by
  simp [encI32, encLE_length]

lemma decodeLE_encLE (w v : Nat) (h : v < 256 ^ w) : decodeLE (encLE w v) = v := by
  induction w generalizing v with
  | zero =>
    have : v = 0 := by simpa using h
    simp [this, encLE, decodeLE]
  | succ w ih =>
    have hdiv : v / 256 < 256 ^ w := by
      rw [Nat.div_lt_iff_lt_mul (by norm_num)]
      calc v < 256 ^ (w + 1) := h
        _ = 256 ^ w * 256 := by ring
    rw [encLE, decodeLE, ih _ hdiv]
    omega

lemma decode_encI32 (v : Int) (h1 : -2 ^ 31 ≤ v) (h2 : v < 2 ^ 31) :
    toSigned 32 (decodeLE (encI32 v)) = v := by
  have h0 : 0 ≤ v % 2 ^ 32 := Int.emod_nonneg v (by norm_num)
  have h3 : v % 2 ^ 32 < 2 ^ 32 := Int.emod_lt_of_pos v (by norm_num)
  have hlt : (v % 2 ^ 32).toNat < 256 ^ 4 := by norm_num; omega
  rw [encI32, decodeLE_encLE _ _ hlt, toSigned]
  split
  · next h => omega
  · next h => omega

lemma freadBytes_exact (size nmemb : Nat) (a b : List Nat) (flag : Bool)
    (ha : a.length = size * nmemb) (hsz : 0 < size) :
    freadBytes size nmemb ⟨a ++ b, flag⟩ = (a, nmemb, ⟨b, flag⟩) := by
  have hlen : (a ++ b).length = size * nmemb + b.length := by simp [ha]
  have hge : ¬((a ++ b).length < size * nmemb) := by omega
  have hmin : min (size * nmemb) (a ++ b).length = size * nmemb := by omega
  have htake : (a ++ b).take (size * nmemb) = a := by
    rw [← ha]; exact List.take_left a b
  have hdrop : (a ++ b).drop (size * nmemb) = b := by
    rw [← ha]; exact List.drop_left a b
  have hdiv : size * nmemb / size = nmemb := Nat.mul_div_cancel_left nmemb hsz
  have hmin2 : size * nmemb ⊓ (a.length + b.length) = size * nmemb := by omega
  have hflag : (a.length + b.length < size * nmemb) = False := by
    simp only [eq_iff_iff, iff_false]; omega
  simp only [freadBytes, List.length_append, hmin2, htake, hdrop, hdiv, hflag,
    decide_False, Bool.or_false]

lemma decodeRecordsAux_length (fuel : Nat) :
    ∀ bs : List Nat, bs.length ≤ fuel →
      (decodeRecordsAux fuel bs).length = bs.length / 40 := by
  induction fuel with
  | zero =>
    intro bs h
    have : bs = [] := List.eq_nil_of_length_eq_zero (by omega)
    simp [this, decodeRecordsAux]
  | succ fuel ih =>
    intro bs h
    rw [decodeRecordsAux]
    split
    · next h40 =>
      rw [List.length_cons, ih (bs.drop 40) (by simp; omega)]
      simp only [List.length_drop]
      omega
    · next h40 =>
      simp only [List.length_nil]
      omega

lemma decodeRecords_length (bs : List Nat) :
    (decodeRecords bs).length = bs.length / 40 :=
  decodeRecordsAux_length bs.length bs le_rfl

lemma range_map_getD {α : Type} (a b : List α) (d : α) :
    (List.range a.length).map (fun i => (a ++ b).getD i d) = a := by
  induction a with
  | nil => simp
  | cons x a ih =>
    rw [List.length_cons, List.range_succ_eq_map]
    simp only [List.map_cons, List.map_map, List.cons_append, List.getD_cons_zero]
    have hfun : ((fun i => (x :: (a ++ b)).getD i d) ∘ Nat.succ) =
        fun i => (a ++ b).getD i d := by
      funext i
      simp [List.getD_cons_succ]
    rw [hfun, ih]

lemma range_map_getD_map {α β : Type} (g : α → β) (a b : List α) (d : α)
    (n : Nat) (h : a.length = n) :
    (List.range n).map (fun i => g ((a ++ b).getD i d)) = a.map g := by
  subst h
  have := congrArg (List.map g) (range_map_getD a b d)
  simpa [List.map_map, Function.comp] using this

/-- Behaviour of `read_trace` on a well-formed batch: a 4-byte length `n`
within capacity followed by `n` complete records.  It emits one row per
record and returns `1 + n` (the length field counts as one item). -/
lemma read_trace_full_batch (capacity n : Nat) (start_time : Int)
    (descs : List object_description_t) (buf : List trace_record_t)
    (body rest : List Nat)
    (hn : n < 2 ^ 31) (hcap : n ≤ capacity) (hbody : body.length = 40 * n) :
    read_trace capacity start_time descs buf
        ⟨encI32 (n : Int) ++ (body ++ rest), false⟩ =
      .ret ((decodeRecords body).map (mkRow start_time descs)) (1 + n)
        (decodeRecords body ++ buf.drop n) ⟨rest, false⟩ := by
  have h1 : freadBytes 4 1 (⟨encI32 (n : Int) ++ (body ++ rest), false⟩ : CFile) =
      (encI32 (n : Int), 1, ⟨body ++ rest, false⟩) :=
    freadBytes_exact 4 1 _ _ _ (by simp [encI32_length]) (by norm_num)
  have hdec : toSigned 32 (decodeLE (encI32 (n : Int))) = (n : Int) :=
    decode_encI32 _ (by omega) (by exact_mod_cast hn)
  have h2 : freadBytes 40 n (⟨body ++ rest, false⟩ : CFile) = (body, n, ⟨rest, false⟩) :=
    freadBytes_exact 40 n _ _ _ hbody (by norm_num)
  have hgt : ¬((n : Int) > (capacity : Int)) := by exact_mod_cast not_lt.mpr hcap
  have hmod : (((n : Int)) % 2 ^ 64).toNat = n := by omega
  have htn : ((n : Int)).toNat = n := Int.toNat_natCast n
  have hlenrec : (decodeRecords body).length = n := by
    rw [decodeRecords_length, hbody]; omega
  rw [read_trace]
  simp only [h1, hdec, sizeof_trace_record_t, hmod, htn, h2, if_neg hgt]
  rw [if_neg (by norm_num)]
  congr 1
  exact range_map_getD_map (mkRow start_time descs) _ _ _ n hlenrec

lemma wrap64_eq_of_range (d : Int) (h1 : -2 ^ 63 ≤ d) (h2 : d < 2 ^ 63) :
    wrap64 d = d := by
  rw [wrap64]; omega

lemma wrap64_emod (d : Int) : wrap64 d % 2 ^ 64 = d % 2 ^ 64 := by
  rw [wrap64]; omega

lemma decodeRecordsAux_fuel :
    ∀ fuel1 fuel2 (bs : List Nat), bs.length ≤ fuel1 → bs.length ≤ fuel2 →
      decodeRecordsAux fuel1 bs = decodeRecordsAux fuel2 bs := by
  intro fuel1
  induction fuel1 with
  | zero =>
    intro fuel2 bs h1 h2
    have hbs : bs = [] := List.eq_nil_of_length_eq_zero (by omega)
    subst hbs
    cases fuel2 <;> simp [decodeRecordsAux]
  | succ f ih =>
    intro fuel2 bs h1 h2
    cases fuel2 with
    | zero =>
      have hbs : bs = [] := List.eq_nil_of_length_eq_zero (by omega)
      subst hbs
      simp [decodeRecordsAux]
    | succ f2 =>
      rw [decodeRecordsAux, decodeRecordsAux]
      by_cases h40 : 40 ≤ bs.length
      · rw [if_pos h40, if_pos h40]
        congr 1
        exact ih f2 _ (by simp; omega) (by simp; omega)
      · rw [if_neg h40, if_neg h40]

lemma decodeRecords_step (bs : List Nat) (h : 40 ≤ bs.length) :
    decodeRecords bs = decodeRecord (bs.take 40) :: decodeRecords (bs.drop 40) := by
  obtain ⟨k, hk⟩ : ∃ k, bs.length = k + 1 := ⟨bs.length - 1, by omega⟩
  rw [decodeRecords, hk, decodeRecordsAux, if_pos (by omega)]
  congr 1
  exact decodeRecordsAux_fuel k (bs.drop 40).length _ (by simp; omega) le_rfl

lemma decodeRecords_singleton (bs : List Nat) (h : bs.length = 40) :
    decodeRecords bs = [decodeRecord bs] := by
  rw [decodeRecords_step bs (by omega)]
  have ht : bs.take 40 = bs := List.take_of_length_le (by omega)
  have hd : bs.drop 40 = [] := List.drop_eq_nil_of_le (by omega)
  rw [ht, hd]
  rfl

set_option maxRecDepth 40000 in
lemma repr_length_le_three : ∀ m : Nat, m < 1000 → (Nat.repr m).toList.length ≤ 3 := by
  decide

lemma reaction_name_full (n : Int) (h0 : 0 ≤ n) (h1 : n ≤ 999) :
    reaction_name n = toString n := by
  obtain ⟨m, rfl⟩ : ∃ m : Nat, n = (m : Int) := ⟨n.toNat, (Int.toNat_of_nonneg h0).symm⟩
  have hm : m < 1000 := by omega
  rw [reaction_name, if_pos h0]
  have hts : toString ((m : Int)) = Nat.repr m := rfl
  rw [hts, List.take_of_length_le (repr_length_le_three m hm)]
  rfl

lemma get_description_miss (descs : List object_description_t) (object : Nat)
    (h : ∀ d ∈ descs, d.object ≠ object) :
    get_description descs object = "NO DESCRIPTION FOUND" := by
  induction descs with
  | nil => rfl
  | cons d rest ih =>
    simp only [get_description]
    rw [if_neg (h d (List.mem_cons_self d rest))]
    exact ih fun d2 hd2 => h d2 (List.mem_cons_of_mem d hd2)

/-- C1 (counterexample): a truncated batch-length field (2 bytes available
where 4 are expected) makes `read_trace` return 0 — the same
normal-termination signal as a clean end of file — because the short
`fread` sets the end-of-file indicator, so the `feof` test succeeds.  It
is not a fatal error distinct from normal termination. -/
theorem read_trace_two_byte_length_returns_zero :
    read_trace 2048 0 [] [] ⟨[1, 2], false⟩ = .ret [] 0 [] ⟨[], true⟩ ∧
    read_trace 2048 0 [] [] ⟨[], false⟩ = .ret [] 0 [] ⟨[], true⟩ := by
  decide

/-- C1 (amended): any short read of the 4-byte batch-length field — clean
end of file with zero bytes, or a truncated field with 1 to 3 bytes —
sets the end-of-file indicator and makes `read_trace` return 0, i.e.
normal termination of the main loop; the `exit(3)` path is reachable only
when the short read happens without the end-of-file indicator (a stream
error, which a pure byte stream never produces). -/
theorem read_trace_short_length_is_silent_eof (capacity : Nat)
    (start_time : Int) (descs : List object_description_t)
    (buf : List trace_record_t) (f : CFile)
    (hflag : f.eofFlag = false) (hshort : f.data.length < 4) :
    read_trace capacity start_time descs buf f = .ret [] 0 buf ⟨[], true⟩ := by
  have h1 : freadBytes 4 1 f = (f.data, 0, ⟨[], true⟩) := by
    rw [freadBytes]
    have hmin : min (4 * 1) f.data.length = f.data.length := by omega
    simp [hmin, Nat.div_eq_of_lt hshort, hflag, hshort]
  rw [read_trace]
  simp [h1]

/-- C1 (witness): the amended statement evaluated on a concrete 2-byte
stream. -/
theorem read_trace_short_length_is_silent_eof_witness :
    read_trace 2048 0 [] [] ⟨[7, 7], false⟩ = .ret [] 0 [] ⟨[], true⟩ :=
  read_trace_short_length_is_silent_eof 2048 0 [] [] ⟨[7, 7], false⟩ rfl
    (by decide)

/-- C2 (counterexample): a record whose event kind is `-1` — out of range
for every name table — is not detected: `read_trace` emits its row
normally, using `-1` as the index into `trace_event_names`. -/
theorem read_trace_emits_row_with_negative_event_index :
    read_trace 2048 0 [] [] ⟨encI32 1 ++ encRecord exRecNegKind, false⟩ =
      .ret [exRowNegKind] 2 [exRecNegKind] ⟨[], false⟩ ∧
    exRowNegKind.event_index < 0 := by
  decide

/-- C2 (amended): `read_trace` applies no range check to the event kind:
every emitted row uses the record's `event_type` directly as the index
into the external `trace_event_names` table, and a well-formed batch is
decoded and emitted whatever the event kinds of its records, so an
out-of-range kind leads to an out-of-bounds table read instead of a fatal
corruption error. -/
theorem read_trace_no_event_kind_bounds_check :
    (∀ (start_time : Int) (descs : List object_description_t)
        (r : trace_record_t),
        (mkRow start_time descs r).event_index = r.event_type) ∧
    (∀ (capacity n : Nat) (start_time : Int)
        (descs : List object_description_t) (buf : List trace_record_t)
        (body rest : List Nat),
        n < 2 ^ 31 → n ≤ capacity → body.length = 40 * n →
        read_trace capacity start_time descs buf
            ⟨encI32 (n : Int) ++ (body ++ rest), false⟩ =
          .ret ((decodeRecords body).map (mkRow start_time descs)) (1 + n)
            (decodeRecords body ++ buf.drop n) ⟨rest, false⟩) :=
  ⟨fun _ _ _ => rfl,
   fun capacity n start_time descs buf body rest h1 h2 h3 =>
     read_trace_full_batch capacity n start_time descs buf body rest h1 h2 h3⟩

/-- C2 (witness): the amended statement evaluated on a concrete
one-record batch whose event kind is negative. -/
theorem read_trace_no_event_kind_bounds_check_witness :
    (mkRow 0 [] exRecNegKind).event_index = exRecNegKind.event_type ∧
    read_trace 2048 0 [] [] ⟨encI32 (1 : Int) ++ (encRecord exRecNegKind ++ []), false⟩ =
      .ret ((decodeRecords (encRecord exRecNegKind)).map (mkRow 0 [])) (1 + 1)
        (decodeRecords (encRecord exRecNegKind) ++ List.drop 1 []) ⟨[], false⟩ :=
  ⟨read_trace_no_event_kind_bounds_check.1 0 [] exRecNegKind,
   read_trace_no_event_kind_bounds_check.2 2048 1 0 [] []
     (encRecord exRecNegKind) [] (by norm_num) (by norm_num) (by decide)⟩

/-- C3 (code bug): `read_header` is declared with return type `size_t`,
so its `return -1` on allocation failure produces `2^64 - 1`, and the
`read_header(trace_file) >= 0` guard in `main` — an unsigned comparison —
passes.  On a stream whose header declares 7 objects and whose remaining
bytes form a one-record batch, allocation failure does not stop the
program: the CSV header line is written and a body row is decoded and
emitted, contradicting the claim that the guard prevents the decoding
loop from running. -/
theorem alloc_failure_guard_always_passes :
    read_header true ⟨encI64 5 ++ encI32 7 ++ (encI32 1 ++ encRecord exRecNone), false⟩ =
      .ret (2 ^ 64 - 1) 5 [] ⟨encI32 1 ++ encRecord exRecNone, false⟩ ∧
    main_convert 2048 true [] 3
        ⟨encI64 5 ++ encI32 7 ++ (encI32 1 ++ encRecord exRecNone), false⟩ =
      .done true [exRowNone] := by
  decide

/-- C4 (counterexample): `reaction_number = 1000` renders as `"100"`, not
as its full decimal representation: `snprintf` with buffer size 4 keeps
only the first three characters. -/
theorem reaction_number_1000_renders_100 :
    (mkRow 0 [] exRec1000).reaction = "100" ∧
    "100" ≠ toString (1000 : Int) := by
  decide

/-- C4 (amended): a negative reaction number renders as the literal
`"none"`; a non-negative one renders as its decimal text truncated to the
first three characters (the `snprintf` buffer holds 3 characters plus
NUL), which is the full decimal representation exactly for values up to
999 — in particular -1 renders `"none"`, 0 renders `"0"` and 7 renders
`"7"`. -/
theorem reaction_rendering_truncated_at_three_digits :
    (∀ (start_time : Int) (descs : List object_description_t)
        (r : trace_record_t), r.reaction_number < 0 →
        (mkRow start_time descs r).reaction = "none") ∧
    (∀ (start_time : Int) (descs : List object_description_t)
        (r : trace_record_t),
        0 ≤ r.reaction_number → r.reaction_number ≤ 999 →
        (mkRow start_time descs r).reaction = toString r.reaction_number) ∧
    (∀ (start_time : Int) (descs : List object_description_t)
        (r : trace_record_t), 0 ≤ r.reaction_number →
        (mkRow start_time descs r).reaction =
          String.mk ((toString r.reaction_number).toList.take 3)) := by
  refine ⟨?_, ?_, ?_⟩
  · intro start_time descs r h
    show reaction_name r.reaction_number = "none"
    rw [reaction_name, if_neg (not_le.mpr h)]
  · intro start_time descs r h0 h1
    exact reaction_name_full r.reaction_number h0 h1
  · intro start_time descs r h
    show reaction_name r.reaction_number = _
    rw [reaction_name, if_pos h]

/-- C4 (witness): the amended statement evaluated at the reaction numbers
-1 and 7 named by the claim. -/
theorem reaction_rendering_truncated_at_three_digits_witness :
    (mkRow 0 [] exRecNone).reaction = "none" ∧
    (mkRow 0 [] exRecB).reaction = toString exRecB.reaction_number :=
  ⟨reaction_rendering_truncated_at_three_digits.1 0 [] exRecNone (by decide),
   reaction_rendering_truncated_at_three_digits.2.1 0 [] exRecB (by decide)
     (by decide)⟩

/-- C5 (counterexample): a fully read batch of 2 records makes
`read_trace` return 3, not 2: the returned `items_read` also counts the
batch-length field. -/
theorem read_trace_two_records_returns_three :
    read_trace 2048 0 [] [] ⟨encI32 2 ++ (encRecord exRecA ++ encRecord exRecB), false⟩ =
      .ret [exRowA, exRowB] 3 [exRecA, exRecB] ⟨[], false⟩ ∧
    (3 : Nat) ≠ 2 := by
  decide

/-- C5 (amended): for every successfully read batch of declared length
`n` (within capacity, not at end of file) `read_trace` emits `n` rows but
returns `1 + n` — the count of `fread` items read, which includes the
length field — and the driving loop keeps calling `read_trace`, stopping
exactly on a return of 0. -/
theorem read_trace_count_is_one_plus_records :
    (∀ (capacity n : Nat) (start_time : Int)
        (descs : List object_description_t) (buf : List trace_record_t)
        (body rest : List Nat),
        n < 2 ^ 31 → n ≤ capacity → body.length = 40 * n →
        read_trace capacity start_time descs buf
            ⟨encI32 (n : Int) ++ (body ++ rest), false⟩ =
          .ret ((decodeRecords body).map (mkRow start_time descs)) (1 + n)
            (decodeRecords body ++ buf.drop n) ⟨rest, false⟩ ∧
        ((decodeRecords body).map (mkRow start_time descs)).length = n) ∧
    (∀ (capacity : Nat) (start_time : Int)
        (descs : List object_description_t) (fuel : Nat)
        (buf : List trace_record_t) (f : CFile) (rows : List OutputRow)
        (newBuf : List trace_record_t) (f1 : CFile),
        read_trace capacity start_time descs buf f = .ret rows 0 newBuf f1 →
        trace_loop capacity start_time descs (fuel + 1) buf f = .done rows) ∧
    (∀ (capacity : Nat) (start_time : Int)
        (descs : List object_description_t) (fuel : Nat)
        (buf : List trace_record_t) (f : CFile) (rows : List OutputRow)
        (count : Nat) (newBuf : List trace_record_t) (f1 : CFile)
        (laterRows : List OutputRow),
        read_trace capacity start_time descs buf f = .ret rows count newBuf f1 →
        count ≠ 0 →
        trace_loop capacity start_time descs fuel newBuf f1 = .done laterRows →
        trace_loop capacity start_time descs (fuel + 1) buf f =
          .done (rows ++ laterRows)) := by
  refine ⟨?_, ?_, ?_⟩
  · intro capacity n start_time descs buf body rest h1 h2 h3
    refine ⟨read_trace_full_batch capacity n start_time descs buf body rest h1 h2 h3, ?_⟩
    rw [List.length_map, decodeRecords_length, h3]
    omega
  · intro capacity start_time descs fuel buf f rows newBuf f1 h
    simp [trace_loop, h]
  · intro capacity start_time descs fuel buf f rows count newBuf f1 laterRows h hc hl
    simp [trace_loop, h, hc, hl]

/-- C5 (witness): the amended statement evaluated on a one-record batch,
on a clean end of file, and on an empty batch followed by end of file. -/
theorem read_trace_count_is_one_plus_records_witness :
    (read_trace 2048 0 [] [] ⟨encI32 (1 : Int) ++ (encRecord exRecA ++ []), false⟩ =
        .ret ((decodeRecords (encRecord exRecA)).map (mkRow 0 [])) (1 + 1)
          (decodeRecords (encRecord exRecA) ++ List.drop 1 []) ⟨[], false⟩) ∧
    trace_loop 2048 0 [] 1 [] ⟨[], false⟩ = .done [] ∧
    trace_loop 2048 0 [] 2 [] ⟨encI32 0, false⟩ = .done ([] ++ []) :=
  ⟨(read_trace_count_is_one_plus_records.1 2048 1 0 [] [] (encRecord exRecA) []
      (by norm_num) (by norm_num) (by decide)).1,
   read_trace_count_is_one_plus_records.2.1 2048 0 [] 0 [] ⟨[], false⟩ [] []
     ⟨[], true⟩ (by decide),
   read_trace_count_is_one_plus_records.2.2 2048 0 [] 1 [] ⟨encI32 0, false⟩ []
     1 [] ⟨[], false⟩ [] (by decide) (by norm_num) (by decide)⟩

/-- C6: a lookup miss in the object-description table yields the sentinel
string, the row is still emitted as a normal row, and the lookup never
aborts: `get_description` returns `"NO DESCRIPTION FOUND"` whenever no
entry matches, the emitted row carries that sentinel in its Reactor
column, and `read_trace` on a one-record batch returns normally whatever
the table contents. -/
theorem missing_object_yields_sentinel_row :
    (∀ (descs : List object_description_t) (object : Nat),
        (∀ d ∈ descs, d.object ≠ object) →
        get_description descs object = "NO DESCRIPTION FOUND") ∧
    (∀ (start_time : Int) (descs : List object_description_t)
        (r : trace_record_t),
        (∀ d ∈ descs, d.object ≠ r.self_struct) →
        (mkRow start_time descs r).reactor = "NO DESCRIPTION FOUND") ∧
    (∀ (capacity : Nat) (start_time : Int)
        (descs : List object_description_t) (buf : List trace_record_t)
        (body rest : List Nat),
        1 ≤ capacity → body.length = 40 →
        read_trace capacity start_time descs buf
            ⟨encI32 (1 : Int) ++ (body ++ rest), false⟩ =
          .ret [mkRow start_time descs (decodeRecord body)] 2
            (decodeRecord body :: buf.drop 1) ⟨rest, false⟩) := by
  refine ⟨fun descs object h => get_description_miss descs object h, ?_, ?_⟩
  · intro start_time descs r h
    exact get_description_miss descs r.self_struct h
  · intro capacity start_time descs buf body rest hcap hlen
    have h := read_trace_full_batch capacity 1 start_time descs buf body rest
      (by norm_num) hcap (by omega)
    rw [decodeRecords_singleton body hlen] at h
    simpa using h

/-- C6 (witness): the statement evaluated on a concrete table that does
not contain the record's identity. -/
theorem missing_object_yields_sentinel_row_witness :
    get_description exTable 6 = "NO DESCRIPTION FOUND" ∧
    (mkRow 0 exTable exRecB).reactor = "NO DESCRIPTION FOUND" ∧
    read_trace 2048 0 exTable [] ⟨encI32 (1 : Int) ++ (encRecord exRecB ++ []), false⟩ =
      .ret [mkRow 0 exTable (decodeRecord (encRecord exRecB))] 2
        (decodeRecord (encRecord exRecB) :: List.drop 1 []) ⟨[], false⟩ :=
  ⟨missing_object_yields_sentinel_row.1 exTable 6 (by decide),
   missing_object_yields_sentinel_row.2.1 0 exTable exRecB (by decide),
   missing_object_yields_sentinel_row.2.2 2048 0 exTable [] (encRecord exRecB)
     [] (by norm_num) (by decide)⟩

/-- C7: a batch whose declared length exceeds the buffer capacity makes
`read_trace` call `exit(4)` immediately after the length field is read:
no record of the batch is read or decoded and no row is emitted. -/
theorem oversized_batch_length_exits_four (capacity : Nat)
    (start_time : Int) (descs : List object_description_t)
    (buf : List trace_record_t) (L : Int) (rest : List Nat)
    (h1 : (capacity : Int) < L) (h2 : L < 2 ^ 31) :
    read_trace capacity start_time descs buf ⟨encI32 L ++ rest, false⟩ =
      .exit 4 := by
  have h0 : (0 : Int) ≤ L := (Int.natCast_nonneg capacity).trans h1.le
  have hf : freadBytes 4 1 ⟨encI32 L ++ rest, false⟩ = (encI32 L, 1, ⟨rest, false⟩) :=
    freadBytes_exact 4 1 _ _ _ (by simp [encI32_length]) (by norm_num)
  have hd : toSigned 32 (decodeLE (encI32 L)) = L := decode_encI32 L (by omega) h2
  rw [read_trace]
  simp only [hf, hd]
  rw [if_neg (by norm_num), if_pos (show L > (capacity : Int) from h1)]

/-- C7 (witness): the statement evaluated at capacity 2048 and declared
length 3000. -/
theorem oversized_batch_length_exits_four_witness :
    (2048 : Int) < 3000 ∧
    read_trace 2048 0 [] [] ⟨encI32 3000 ++ [], false⟩ = .exit 4 :=
  ⟨by norm_num,
   oversized_batch_length_exits_four 2048 0 [] [] 3000 [] (by norm_num)
     (by norm_num)⟩

/-- C8: for every emitted row the elapsed logical and physical times are
the record times minus the header start time computed in signed 64-bit
arithmetic: the value is exact (no saturation or clamping) whenever the
difference fits in signed 64-bit range, and otherwise wraps around
two-complement style, preserving the difference modulo 2^64. -/
theorem elapsed_times_signed64_no_clamping :
    (∀ (start_time : Int) (descs : List object_description_t)
        (r : trace_record_t),
        (mkRow start_time descs r).elapsed_logical =
          wrap64 (r.logical_time - start_time) ∧
        (mkRow start_time descs r).elapsed_physical =
          wrap64 (r.physical_time - start_time)) ∧
    (∀ d : Int, -2 ^ 63 ≤ d → d < 2 ^ 63 → wrap64 d = d) ∧
    (∀ d : Int, wrap64 d % 2 ^ 64 = d % 2 ^ 64) :=
  ⟨fun _ _ _ => ⟨rfl, rfl⟩, wrap64_eq_of_range, wrap64_emod⟩

/-- C8 (witness): the statement evaluated on a concrete record and a
concrete in-range difference. -/
theorem elapsed_times_signed64_no_clamping_witness :
    (mkRow 5 [] exRecNone).elapsed_logical =
      wrap64 (exRecNone.logical_time - 5) ∧
    wrap64 7 = 7 :=
  ⟨(elapsed_times_signed64_no_clamping.1 5 [] exRecNone).1,
   elapsed_times_signed64_no_clamping.2.1 7 (by norm_num) (by norm_num)⟩

/-- C9: a batch of declared length 0 emits no rows and makes `read_trace`
return 1 — the item count of the successfully read length field — so the
driving loop simply continues with the next batch instead of treating the
empty batch as end of stream. -/
theorem zero_length_batch_returns_one_and_continues (capacity : Nat)
    (start_time : Int) (descs : List object_description_t)
    (buf : List trace_record_t) (rest : List Nat) (fuel : Nat) :
    read_trace capacity start_time descs buf ⟨encI32 0 ++ rest, false⟩ =
      .ret [] 1 buf ⟨rest, false⟩ ∧
    trace_loop capacity start_time descs (fuel + 1) buf ⟨encI32 0 ++ rest, false⟩ =
      trace_loop capacity start_time descs fuel buf ⟨rest, false⟩ := by
  have h0 := read_trace_full_batch capacity 0 start_time descs buf [] rest
    (by norm_num) (Nat.zero_le _) (by simp)
  have hrt : read_trace capacity start_time descs buf ⟨encI32 0 ++ rest, false⟩ =
      .ret [] 1 buf ⟨rest, false⟩ := by
    simpa [decodeRecords, decodeRecordsAux] using h0
  refine ⟨hrt, ?_⟩
  rcases htl : trace_loop capacity start_time descs fuel buf ⟨rest, false⟩ with c | rows | _ <;>
    simp [trace_loop, hrt, htl]

/-- C10: the batch-length validity check only rejects lengths strictly
greater than the capacity: a negative declared batch length passes the
check, is not treated as a corruption error, and `read_trace` returns
normally having emitted no rows. -/
theorem negative_batch_length_not_rejected (capacity : Nat)
    (start_time : Int) (descs : List object_description_t)
    (buf : List trace_record_t) (L : Int) (rest : List Nat)
    (hneg : L < 0) (hge : -2 ^ 31 ≤ L) :
    ∃ (count : Nat) (newBuf : List trace_record_t) (f1 : CFile),
      read_trace capacity start_time descs buf ⟨encI32 L ++ rest, false⟩ =
        .ret [] count newBuf f1 := by
  have hf : freadBytes 4 1 ⟨encI32 L ++ rest, false⟩ = (encI32 L, 1, ⟨rest, false⟩) :=
    freadBytes_exact 4 1 _ _ _ (by simp [encI32_length]) (by norm_num)
  have hd : toSigned 32 (decodeLE (encI32 L)) = L := decode_encI32 L hge (by omega)
  have hgt : ¬(L > (capacity : Int)) := by
    have := Int.natCast_nonneg capacity
    omega
  rcases hre : freadBytes sizeof_trace_record_t (L % 2 ^ 64).toNat ⟨rest, false⟩ with
    ⟨bytes, items, f2⟩
  refine ⟨1 + items, decodeRecords bytes ++ buf.drop items, f2, ?_⟩
  rw [read_trace]
  simp only [hf, hd]
  rw [if_neg (by norm_num), if_neg hgt]
  norm_num at hre
  simp [hre, Int.toNat_of_nonpos hneg.le]

/-- C10 (witness): the statement evaluated at declared batch length -1. -/
theorem negative_batch_length_not_rejected_witness :
    (-1 : Int) < 0 ∧
    ∃ (count : Nat) (newBuf : List trace_record_t) (f1 : CFile),
      read_trace 2048 0 [] [] ⟨encI32 (-1) ++ [], false⟩ =
        .ret [] count newBuf f1 :=
  ⟨by norm_num,
   negative_batch_length_not_rejected 2048 0 [] [] (-1) [] (by norm_num)
     (by norm_num)⟩

end TraceToCsv
